import Mathlib

/-!
# Verification of the bias-lens clustering core

Shallow embedding of the clustering engine of the `bias-lens` repository
(`src/ml/cluster.py` and `src/database.py`) together with proofs about the
properties claimed of it.

Modelling conventions:
* Python strings are Lean `String`s; slicing `s[:n]` is `List.take n` on the
  character list (both index by code point).
* The regular expressions of `preprocess_text` are implemented as character
  automata over `List Char`, restricted to the ASCII fragment of the classes
  `\w` (alphanumeric or underscore) and `\s` that the repository's data uses.
* SQLite tables are Lean lists of rows; the database handle is a `DBState`
  record threaded explicitly.
* External numeric routines (the sentence-transformer encoder,
  `StandardScaler.fit_transform`, `HDBSCAN.fit_predict`, and the summed
  per-term weights of `TfidfVectorizer.fit_transform`) are taken as explicit
  function parameters: the claims under study never depend on their values,
  only on how their results flow through the code.
* Fallible store operations are modelled with explicit failure oracles.
-/

namespace BiasLens

/-! ## Text normalizer (`ArticleClusterer.preprocess_text`) -/

/-- ASCII fragment of the regex class `\s` used by `re.sub(r'\s+', ...)`. -/
def isPySpace (c : Char) : Bool :=
  c == ' ' || c == '\t' || c == '\n' || c == '\r' || c == '\x0b' || c == '\x0c'

/-- ASCII fragment of the regex class `\w`: alphanumerics and underscore. -/
def isWordChar (c : Char) : Bool :=
  c.isAlphanum || c == '_'

/-- The character whitelist of `re.sub(r'[^\w\s\.\,\!\?\-]', '', text)`:
a character is kept iff it is a word character, whitespace, or one of
`. , ! ? -`. -/
def keepChar (c : Char) : Bool :=
  isWordChar c || isPySpace c || c == '.' || c == ',' || c == '!' || c == '?' || c == '-'

/-- One step of `re.sub(r'<[^>]+>', '', text)`.  The second argument is
`none` while scanning outside a candidate tag and `some buf` (with `buf`
holding the reversed characters read so far) after an unmatched `<`. -/
def removeTagsAux : List Char → Option (List Char) → List Char
  | [], none => []
  | [], some buf => '<' :: buf.reverse
  | c :: cs, none =>
    if c == '<' then removeTagsAux cs (some []) else c :: removeTagsAux cs none
  | c :: cs, some buf =>
    if c == '>' then
      if buf.isEmpty then '<' :: '>' :: removeTagsAux cs none
      else removeTagsAux cs none
    else removeTagsAux cs (some (c :: buf))

/-- `re.sub(r'<[^>]+>', '', text)`: delete every maximal `<...>` span with at
least one non-`>` character inside. -/
def removeTags (l : List Char) : List Char :=
  removeTagsAux l none

/-- `re.sub(r'\s+', ' ', text)`: replace every maximal run of whitespace by a
single space.  The flag records whether the previous character was part of a
whitespace run. -/
def collapseWsAux : Bool → List Char → List Char
  | _, [] => []
  | inRun, c :: cs =>
    if isPySpace c then
      if inRun then collapseWsAux true cs else ' ' :: collapseWsAux true cs
    else c :: collapseWsAux false cs

def collapseWs (l : List Char) : List Char :=
  collapseWsAux false l

/-- Python `str.strip()`: drop leading and trailing whitespace. -/
def stripPy (l : List Char) : List Char :=
  ((l.dropWhile isPySpace).reverse.dropWhile isPySpace).reverse

/-- ASCII fragment of Python `str.lower()`. -/
def pyToLower (c : Char) : Char :=
  if 'A' ≤ c ∧ c ≤ 'Z' then Char.ofNat (c.toNat + 32) else c

/-- `ArticleClusterer.preprocess_text` on a character list, in the order of
the source: strip markup tags, collapse whitespace and strip the ends, filter
by the whitelist, lower-case.  (The Python `if not text: return ""` guard is
extensionally the identity on the empty string.) -/
def preprocessChars (l : List Char) : List Char :=
  ((stripPy (collapseWs (removeTags l))).filter keepChar).map pyToLower

/-- `ArticleClusterer.preprocess_text`. -/
def preprocess_text (s : String) : String :=
  ⟨preprocessChars s.data⟩

/-! ## Configuration constants (`config.py`) -/

def EMBEDDING_MODEL : String := "sentence-transformers/all-mpnet-base-v2"

def MIN_CLUSTER_SIZE : Nat := 3

def MIN_SAMPLES : Nat := 2

/-! ## Data model (`database.py` schema) -/

/-- A row of the `articles` table (the fields the clustering core reads). -/
structure Article where
  id : Int
  title : String
  text : String
  published_at : Int
deriving DecidableEq

/-- A row of the `embeddings` table. -/
structure EmbRow where
  article_id : Int
  vector : List Rat
  model_name : String
deriving DecidableEq

/-- A row of the `clusters` table. -/
structure ClusterRow where
  cluster_id : Int
  label : String
deriving DecidableEq

/-- A row of the `cluster_members` table. -/
structure MemberRow where
  cluster_id : Int
  article_id : Int
deriving DecidableEq

/-- The persistent state behind `StoryGenomeDB` (the tables the clustering
core touches). -/
structure DBState where
  articles : List Article
  embeddings : List EmbRow
  clusters : List ClusterRow
  cluster_members : List MemberRow
deriving DecidableEq

/-! ## Store queries and inserts (`database.py`) -/

/-- Whether some `embeddings` row (under any model name) references the
article: the `LEFT JOIN embeddings e ON a.id = e.article_id WHERE e.id IS
NULL` test of `get_articles_without_embeddings`.  Note that the join
condition does not mention `model_name`. -/
def hasEmbedding (st : DBState) (aid : Int) : Bool :=
  st.embeddings.any (fun e => e.article_id == aid)

/-- The articles with no `embeddings` row at all, in table order. -/
def unembeddedArticles (st : DBState) : List Article :=
  st.articles.filter (fun a => !(hasEmbedding st a.id))

/-- `StoryGenomeDB.get_articles_without_embeddings` (the SQL has `LIMIT ?`
and no `ORDER BY`; we model the scan in table order). -/
def get_articles_without_embeddings (st : DBState) (limit : Nat) : List Article :=
  (unembeddedArticles st).take limit

/-- `StoryGenomeDB.insert_embedding`: append one row (the table has no
uniqueness constraint on `article_id`). -/
def insert_embedding (st : DBState) (aid : Int) (v : List Rat) (model : String) : DBState :=
  { st with embeddings := st.embeddings ++ [⟨aid, v, model⟩] }

/-- A row of the `SELECT e.article_id, e.vector, a.title, a.outlet,
a.published_at` join of `get_all_embeddings`.  The row dictionaries carry
no `text` key. -/
structure EmbJoinRow where
  article_id : Int
  vector : List Rat
  title : String
  published_at : Int
deriving DecidableEq

/-- Insert a join row into a list sorted by `published_at` descending. -/
def insertDesc (r : EmbJoinRow) : List EmbJoinRow → List EmbJoinRow
  | [] => [r]
  | x :: xs => if x.published_at ≤ r.published_at then r :: x :: xs else x :: insertDesc r xs

/-- `ORDER BY a.published_at DESC` (SQLite fixes no tie order; any sort by
the key is a faithful model, and the claims are insensitive to the order). -/
def sortByPublishedDesc : List EmbJoinRow → List EmbJoinRow
  | [] => []
  | x :: xs => insertDesc x (sortByPublishedDesc xs)

/-- `StoryGenomeDB.get_all_embeddings`: join `embeddings` with `articles`
on `article_id`, ordered by `published_at` descending. -/
def get_all_embeddings (st : DBState) : List EmbJoinRow :=
  sortByPublishedDesc
    ((st.embeddings.map (fun e =>
      (st.articles.filter (fun a => a.id == e.article_id)).map (fun a =>
        ⟨e.article_id, e.vector, a.title, a.published_at⟩))).flatten)

/-! ## `StoryGenomeDB.update_clusters`

The Python body runs inside `with self.get_connection() as conn:`; the
`sqlite3` connection context manager commits the implicit transaction on
normal exit and rolls it back when an exception escapes the block, so the
delete-then-insert sequence is atomic.  We model the body as the list of SQL
statements it executes, run sequentially against the state, with a failure
oracle `failIdx` naming the first statement at which the underlying store
fails (raising an exception); the transaction wrapper then discards the
partial state and reports failure. -/

/-- One SQL statement executed by `update_clusters`. -/
inductive DbOp where
  | delMembers : DbOp
  | delClusters : DbOp
  | insCluster (cid : Int) (label : String) : DbOp
  | insMember (cid : Int) (aid : Int) : DbOp
deriving DecidableEq

/-- Effect of one statement on the (uncommitted) state. -/
def applyOp (st : DBState) : DbOp → DBState
  | .delMembers => { st with cluster_members := [] }
  | .delClusters => { st with clusters := [] }
  | .insCluster cid lab => { st with clusters := st.clusters ++ [⟨cid, lab⟩] }
  | .insMember cid aid => { st with cluster_members := st.cluster_members ++ [⟨cid, aid⟩] }

/-- The statement sequence of `update_clusters`: clear both tables, insert
one `clusters` row per label, then one `cluster_members` row per assignment
whose cluster id is non-negative (`if cluster_id >= 0`). -/
def opsFor (assignments : List (Int × Int)) (labels : List (Int × String)) : List DbOp :=
  [DbOp.delMembers, DbOp.delClusters]
    ++ labels.map (fun p => DbOp.insCluster p.1 p.2)
    ++ assignments.filterMap (fun p => if 0 ≤ p.2 then some (DbOp.insMember p.2 p.1) else none)

/-- Run the statements in order from index `i`; stop with failure when the
oracle says the store fails at the current statement. -/
def execOps (failIdx : Option Nat) : Nat → DBState → List DbOp → DBState × Bool
  | _, st, [] => (st, true)
  | i, st, op :: rest =>
    if failIdx = some i then (st, false)
    else execOps failIdx (i + 1) (applyOp st op) rest

/-- `StoryGenomeDB.update_clusters`.  `assignments` is the
`cluster_assignments` dict as an (insertion-ordered, key-unique) association
list `article_id ↦ cluster_id`; `labels` likewise maps `cluster_id ↦ label`.
The boolean is `true` when the transaction committed; on failure the
rollback of the connection context manager restores the input state and the
exception propagates to the caller. -/
def update_clusters (failIdx : Option Nat) (st : DBState)
    (assignments : List (Int × Int)) (labels : List (Int × String)) : DBState × Bool :=
  let res := execOps failIdx 0 st (opsFor assignments labels)
  if res.2 then res else (st, false)

/-- The committed state of a successful `update_clusters` run. -/
def replacedState (st : DBState)
    (assignments : List (Int × Int)) (labels : List (Int × String)) : DBState :=
  { st with
    clusters := labels.map (fun p => ⟨p.1, p.2⟩)
    cluster_members := assignments.filterMap
      (fun p => if 0 ≤ p.2 then some ⟨p.2, p.1⟩ else none) }

/-! ## Embedding generation (`ArticleClusterer`) -/

/-- The combined text `f"{title}. {text_preview}"` with
`text_preview = text[:1000]`, normalized: the string whose length
`generate_embeddings` tests against the threshold. -/
def normalizedOf (a : Article) : String :=
  preprocess_text ⟨a.title.data ++ [ '.', ' ' ] ++ a.text.data.take 1000⟩

/-- `ArticleClusterer.generate_embeddings`: keep the articles whose
normalized text has length strictly greater than 50, and batch-encode their
texts.  `encode` stands for `SentenceTransformer.encode`.  Returns the kept
article ids and their vectors (`([], [])` when no text qualifies, modelling
the `if not texts` early return). -/
def generate_embeddings (encode : List String → List (List Rat))
    (articles : List Article) : List Int × List (List Rat) :=
  let pairs := articles.filterMap (fun a =>
    let p := normalizedOf a
    if 50 < p.length then some (a.id, p) else none)
  if pairs.isEmpty then ([], [])
  else (pairs.map Prod.fst, encode (pairs.map Prod.snd))

/-- `ArticleClusterer.store_embeddings`: insert one row per (id, vector)
pair under the active model name.  `fails` is the per-article failure oracle
of the `try/except` body: a failing insert is logged and skipped, and the
loop continues with the next pair. -/
def store_embeddings (fails : Int → Bool) (st : DBState)
    (ids : List Int) (vecs : List (List Rat)) : DBState :=
  (ids.zip vecs).foldl
    (fun s p => if fails p.1 then s else insert_embedding s p.1 p.2 EMBEDDING_MODEL) st

/-- `ArticleClusterer.generate_embeddings_for_unprocessed`: fetch up to 50
articles with no embedding row, embed the ones with enough text, store the
vectors, and return the new state together with the returned count
`len(article_ids)`. -/
def generate_embeddings_for_unprocessed (encode : List String → List (List Rat))
    (fails : Int → Bool) (st : DBState) : DBState × Nat :=
  let articles := get_articles_without_embeddings st 50
  if articles.isEmpty then (st, 0)
  else
    let ids := (generate_embeddings encode articles).1
    let vecs := (generate_embeddings encode articles).2
    if ids.isEmpty then (st, 0)
    else (store_embeddings fails st ids vecs, ids.length)

/-! ## Density clustering (`ArticleClusterer.cluster_articles`) -/

/-- `ArticleClusterer.cluster_articles`.  `scale` stands for
`StandardScaler.fit_transform` and `hdb` for `HDBSCAN.fit_predict` with the
configured parameters (min cluster size 3, min samples 2, Euclidean metric,
excess-of-mass selection); both are external numeric routines the claims do
not depend on.  Below the minimum cluster size the algorithm is skipped and
every row is marked with the noise label `-1`. -/
def cluster_articles (scale : List (List Rat) → List (List Rat))
    (hdb : List (List Rat) → List Int) (embeddings : List (List Rat)) : List Int :=
  if embeddings.length < MIN_CLUSTER_SIZE then List.replicate embeddings.length (-1)
  else hdb (scale embeddings)

/-! ## Label generation (`ArticleClusterer.generate_cluster_labels`) -/

/-- The fields `article.get('title', '')` and `article.get('text', '')` read
by the label generator. -/
structure LabArticle where
  title : String
  text : String
deriving DecidableEq

/-- The per-member document `f"{title} {text[:500]}"`, normalized. -/
def labelText (a : LabArticle) : String :=
  preprocess_text ⟨a.title.data ++ [ ' ' ] ++ a.text.data.take 500⟩

/-- Insert a term into a list sorted by weight descending: the
`argsort()[-5:][::-1]` ranking of the summed TF-IDF weights (numpy fixes no
tie order; the claims are insensitive to it). -/
def insertByWeight (p : String × Rat) : List (String × Rat) → List (String × Rat)
  | [] => [p]
  | q :: qs => if q.2 ≤ p.2 then p :: q :: qs else q :: insertByWeight p qs

def sortByWeightDesc : List (String × Rat) → List (String × Rat)
  | [] => []
  | p :: ps => insertByWeight p (sortByWeightDesc ps)

/-- Python `" ".join(...)`. -/
def joinSpace : List String → String
  | [] => ""
  | [s] => s
  | s :: rest => s ++ " " ++ joinSpace rest

/-- ASCII fragment of Python `str.title()`: upper-case every letter that
follows a non-letter, lower-case the other letters. -/
def pyTitleAux : Bool → List Char → List Char
  | _, [] => []
  | prevAlpha, c :: cs =>
    if c.isAlpha then
      (if prevAlpha then pyToLower c else c.toUpper) :: pyTitleAux true cs
    else c :: pyTitleAux false cs

def pyTitle (s : String) : String :=
  ⟨pyTitleAux false s.data⟩

/-- The body of the per-cluster loop of `generate_cluster_labels`.  `tfidf`
stands for fitting `TfidfVectorizer` on the cluster documents and summing
each vocabulary term's weight over them; `Except.error` is the exception
caught by the `try/except`, which (like the `if not texts` guard and the
no-positive-weight case) yields the fallback label `Cluster <cluster_id>`. -/
def labelOneCluster (tfidf : List String → Except Unit (List (String × Rat)))
    (cid : Int) (texts : List String) : String :=
  if texts.isEmpty then "Cluster " ++ toString cid
  else
    match tfidf texts with
    | Except.error _ => "Cluster " ++ toString cid
    | Except.ok terms =>
      let top_terms := ((sortByWeightDesc terms).take 5).filter (fun p => 0 < p.2)
      if top_terms.isEmpty then "Cluster " ++ toString cid
      else
        pyTitle ⟨(joinSpace ((top_terms.take 3).map Prod.fst)).data.map
          (fun c => if c == '_' then ' ' else c)⟩

/-- `clusters.setdefault(label, []).append(articles[i])`: append a member to
the group of key `l`, keeping first-seen key order. -/
def addToGroup (acc : List (Int × List LabArticle)) (l : Int) (a : LabArticle) :
    List (Int × List LabArticle) :=
  if acc.any (fun p => p.1 = l) then
    acc.map (fun p => if p.1 = l then (p.1, p.2 ++ [a]) else p)
  else acc ++ [(l, [a])]

/-- The grouping loop of `generate_cluster_labels`: iterate over
`enumerate(cluster_labels)` pairing each label with `articles[i]` (modelled
by `zip`; the caller passes lists of equal length), skipping noise labels. -/
def groupByLabel (pairs : List (LabArticle × Int)) : List (Int × List LabArticle) :=
  pairs.foldl (fun acc p => if 0 ≤ p.2 then addToGroup acc p.2 p.1 else acc) []

/-- `ArticleClusterer.generate_cluster_labels`: the dict
`cluster_id ↦ label`, in first-seen cluster order. -/
def generate_cluster_labels (tfidf : List String → Except Unit (List (String × Rat)))
    (articles : List LabArticle) (cluster_labels : List Int) : List (Int × String) :=
  (groupByLabel (articles.zip cluster_labels)).map
    (fun g => (g.1, labelOneCluster tfidf g.1 (g.2.map labelText)))

/-- The documents of cluster `c`: the label texts of the members paired
with label `c` by the grouping loop (an abbreviation for stating lemmas). -/
def memberTexts (articles : List LabArticle) (cluster_labels : List Int) (c : Int) :
    List String :=
  (((articles.zip cluster_labels).filter (fun p => p.2 = c)).map Prod.fst).map labelText

/-! ## The full clustering run (`ArticleClusterer.run_clustering`) -/

/-- Association-list lookup with the leftmost (first-inserted) binding. -/
def assocFind {β : Type} (k : Int) : List (Int × β) → Option β
  | [] => none
  | p :: ps => if p.1 = k then some p.2 else assocFind k ps

/-- `cluster_assignments[article_id] = label`: Python dict assignment on an
insertion-ordered association list (replace in place, else append). -/
def dictInsert (l : List (Int × Int)) (k v : Int) : List (Int × Int) :=
  if l.any (fun p => p.1 = k) then l.map (fun p => if p.1 = k then (k, v) else p)
  else l ++ [(k, v)]

/-- The assignment-building loop of `run_clustering`: keep only non-noise
labels, keyed by article id. -/
def mkAssignments (article_ids : List Int) (cluster_labels : List Int) : List (Int × Int) :=
  (article_ids.zip cluster_labels).foldl
    (fun acc p => if 0 ≤ p.2 then dictInsert acc p.1 p.2 else acc) []

/-- The view of a join row that `generate_cluster_labels` reads: the row
dicts of `get_all_embeddings` have no `text` key, so `get('text', '')`
yields the empty string. -/
def toLabArticle (r : EmbJoinRow) : LabArticle :=
  ⟨r.title, ""⟩

/-- `ArticleClusterer.run_clustering`.  Returns the final state and `some n`
(the number of clusters created) when the run completes, or `none` when the
store fails inside `update_clusters` and the exception propagates (the state
is then the rolled-back one).  The two early returns (`no articles`, `fewer
than MIN_CLUSTER_SIZE`) return `some 0` without touching the store. -/
def run_clustering (scale : List (List Rat) → List (List Rat))
    (hdb : List (List Rat) → List Int)
    (tfidf : List String → Except Unit (List (String × Rat)))
    (failIdx : Option Nat) (st : DBState) : DBState × Option Nat :=
  let articles_data := get_all_embeddings st
  if articles_data.isEmpty then (st, some 0)
  else
    let article_ids := articles_data.map (fun r => r.article_id)
    let embeddings := articles_data.map (fun r => r.vector)
    if embeddings.length < MIN_CLUSTER_SIZE then (st, some 0)
    else
      let cluster_labels := cluster_articles scale hdb embeddings
      let labels_dict :=
        generate_cluster_labels tfidf (articles_data.map toLabArticle) cluster_labels
      let assignments := mkAssignments article_ids cluster_labels
      let res := update_clusters failIdx st assignments labels_dict
      if res.2 then (res.1, some labels_dict.length) else (res.1, none)

/-! ## Claim-side definitions

These two definitions follow the words of the spec (claim C8), to be
compared with the behaviour of `preprocess_text`; they are not part of the
source embedding. -/

/-- The whitelist as the spec states it: alphanumerics, spaces, and the
punctuation `. , ! ? -` (no underscore). -/
def claimWhitelist (c : Char) : Bool :=
  c.isAlphanum || c == ' ' || c == '.' || c == ',' || c == '!' || c == '?' || c == '-'

/-- Whether a character list has no two consecutive spaces (the spec's
"consecutive whitespace is collapsed to a single space" read on the
output). -/
def noDoubleSpace : List Char → Bool
  | [] => true
  | [_] => true
  | a :: b :: rest => !(a == ' ' && b == ' ') && noDoubleSpace (b :: rest)

/-! ## Concrete instances used by counterexamples and witnesses -/

/-- An encoder stub: one (empty) vector per input text. -/
def encConst : List String → List (List Rat) := fun ts => ts.map (fun _ => [])

/-- A store with no transient per-article failures. -/
def noFail : Int → Bool := fun _ => false

/-- A standardizer stub preserving the matrix. -/
def idScale : List (List Rat) → List (List Rat) := fun m => m

/-- A clusterer stub marking every row as noise. -/
def allNoise : List (List Rat) → List Int := fun m => List.replicate m.length (-1)

/-- A clusterer stub putting every row in cluster 0. -/
def zeroCluster : List (List Rat) → List Int := fun m => List.replicate m.length 0

/-- A term model that always fails to fit. -/
def tfidfFail : List String → Except Unit (List (String × Rat)) := fun _ => Except.error ()

/-- One article, one embedding row, and one leftover cluster from an
earlier run. -/
def c1st : DBState :=
  ⟨[⟨1, "t", "x", 0⟩], [⟨1, [], EMBEDDING_MODEL⟩], [⟨0, "Old"⟩], []⟩

/-- One long-texted article embedded only under a different model name. -/
def c5st : DBState :=
  ⟨[⟨1, ⟨List.replicate 60 'a'⟩, "", 0⟩], [⟨1, [], "other-model"⟩], [], []⟩

/-- An article whose normalized text has length exactly 50. -/
def c7article : Article := ⟨1, ⟨List.replicate 46 'a'⟩, "bb", 0⟩

/-- A title long enough that the normalized text passes the threshold. -/
def c4title : String := ⟨List.replicate 51 'a'⟩

/-- 51 embeddable articles, none embedded yet: one more than the per-call
batch limit of `get_articles_without_embeddings(limit=50)`. -/
def c4st : DBState :=
  ⟨(List.range 51).map (fun i => ⟨Int.ofNat i, c4title, "", 0⟩), [], [], []⟩

/-- Three articles with embedding rows: enough for a clustering run. -/
def c3st : DBState :=
  ⟨[⟨1, "t", "", 0⟩, ⟨2, "t", "", 0⟩, ⟨3, "t", "", 0⟩],
   [⟨1, [], EMBEDDING_MODEL⟩, ⟨2, [], EMBEDDING_MODEL⟩, ⟨3, [], EMBEDDING_MODEL⟩], [], []⟩

/-- A state with an existing cluster and membership, used to observe the
rollback of a failed replace. -/
def c2st : DBState := ⟨[], [], [⟨5, "Keep"⟩], [⟨5, 9⟩]⟩

/-- The rows the storage loop of `store_embeddings` appends: one per pair
not hit by the failure oracle (an abbreviation for stating lemmas). -/
def storedRows (fails : Int → Bool) (l : List (Int × List Rat)) : List EmbRow :=
  (l.filter (fun p => !(fails p.1))).map (fun p => ⟨p.1, p.2, EMBEDDING_MODEL⟩)

/-! ## General helper lemmas -/

lemma filterMap_ite_eq {α β : Type} (p : α → Prop) [DecidablePred p] (g : α → β) :
    ∀ l : List α, (l.filterMap (fun a => if p a then some (g a) else none))
      = (l.filter (fun a => decide (p a))).map g := by
  intro l
  induction l with
  | nil => rfl
  | cons x xs ih => by_cases h : p x <;> simp [h, ih]

lemma char_le_iff (a b : Char) : a ≤ b ↔ a.toNat ≤ b.toNat :=
  ⟨fun h => h, fun h => h⟩

lemma toNat_ofNat_valid {n : Nat} (h : n < 55296) : (Char.ofNat n).toNat = n := by
  have hv : n.isValidChar := Or.inl h
  unfold Char.ofNat
  rw [dif_pos hv]
  unfold Char.ofNatAux
  rfl

lemma pyToLower_toNat_of_upper {c : Char} (h : 'A' ≤ c ∧ c ≤ 'Z') :
    (pyToLower c).toNat = c.toNat + 32 := by
  have h2 : c.toNat ≤ 90 := (char_le_iff c 'Z').mp h.2
  unfold pyToLower
  rw [if_pos h]
  exact toNat_ofNat_valid (by omega)

lemma keepChar_pyToLower {c : Char} (h : keepChar c = true) :
    keepChar (pyToLower c) = true := by
  by_cases hc : 'A' ≤ c ∧ c ≤ 'Z'
  · have ht := pyToLower_toNat_of_upper hc
    have h1 : 65 ≤ c.toNat := (char_le_iff 'A' c).mp hc.1
    have h2 : c.toNat ≤ 90 := (char_le_iff c 'Z').mp hc.2
    have hlow : (pyToLower c).isLower = true := by
      show (decide (97 ≤ (pyToLower c).toNat) && decide ((pyToLower c).toNat ≤ 122)) = true
      rw [ht]
      simp only [Bool.and_eq_true, decide_eq_true_eq]
      omega
    simp [keepChar, isWordChar, Char.isAlphanum, Char.isAlpha, hlow]
  · unfold pyToLower
    rw [if_neg hc]
    exact h

lemma pyToLower_not_upper (c : Char) : ¬ ('A' ≤ pyToLower c ∧ pyToLower c ≤ 'Z') := by
  by_cases hc : 'A' ≤ c ∧ c ≤ 'Z'
  · have ht := pyToLower_toNat_of_upper hc
    have h1 : 65 ≤ c.toNat := (char_le_iff 'A' c).mp hc.1
    intro hcon
    have h3 : (pyToLower c).toNat ≤ 90 := (char_le_iff _ 'Z').mp hcon.2
    omega
  · unfold pyToLower
    rw [if_neg hc]
    exact hc

/-! ## C8 — text normalizer -/

/-- C8 (counterexample).  On the input `"a_c @ b"` the normalizer keeps the
underscore (the `\w` class includes it) and leaves two consecutive spaces
where the filtered `@` stood, so the output neither stays inside the
claimed whitelist (alphanumerics, spaces, `. , ! ? -`) nor has its
whitespace collapsed to single spaces. -/
theorem c8_counterexample :
    preprocess_text ("a_c @ b") = "a_c  b"
    ∧ (preprocess_text ("a_c @ b")).data.all claimWhitelist = false
    ∧ noDoubleSpace (preprocess_text ("a_c @ b")).data = false := by
  decide

/-- C8 (amended).  `preprocess_text` is a pure function whose output
characters all belong to the whitelist actually enforced by the code — word
characters (alphanumerics or underscore), whitespace, and `. , ! ? -` — and
contain no upper-case ASCII letter; markup tags are stripped and the input's
whitespace runs are collapsed before filtering, though filtering may leave
consecutive spaces in the output. -/
theorem c8_preprocess_amended (s : String) :
    ∀ c ∈ (preprocess_text s).data, keepChar c = true ∧ ¬ ('A' ≤ c ∧ c ≤ 'Z') := by
  intro c hc
  have hm : ∃ c0, (c0 ∈ (stripPy (collapseWs (removeTags s.data))).filter keepChar
      ∧ pyToLower c0 = c) := by
    simpa [preprocess_text, preprocessChars] using hc
  obtain ⟨c0, hc0, rfl⟩ := hm
  have hk : keepChar c0 = true := (List.mem_filter.mp hc0).2
  exact ⟨keepChar_pyToLower hk, pyToLower_not_upper c0⟩

/-- C8 (witness): the amended theorem applied to the input `"Ab"`, whose
normalization is `"ab"`. -/
theorem c8_witness : keepChar 'a' = true ∧ ¬ ('A' ≤ 'a' ∧ 'a' ≤ 'Z') :=
  c8_preprocess_amended ("Ab") 'a' (by decide)

/-! ## C7 — length threshold -/

/-- The articles that `generate_embeddings` keeps. -/
lemma generate_embeddings_eq (encode : List String → List (List Rat))
    (articles : List Article) :
    generate_embeddings encode articles
      = (if (articles.filter (fun a => 50 < (normalizedOf a).length)).isEmpty
         then ([], [])
         else ((articles.filter (fun a => 50 < (normalizedOf a).length)).map (fun a => a.id),
               encode ((articles.filter (fun a => 50 < (normalizedOf a).length)).map
                 normalizedOf))) := by
  unfold generate_embeddings
  rw [filterMap_ite_eq (fun a => 50 < (normalizedOf a).length) (fun a => (a.id, normalizedOf a))]
  cases h : articles.filter (fun a => decide (50 < (normalizedOf a).length)) with
  | nil => simp [h]
  | cons x xs =>
    simp only [h, List.map_map, List.isEmpty_cons, List.map_cons]
    rfl

/-- The ids returned by `generate_embeddings` are exactly those of the
articles passing the length threshold. -/
lemma generate_embeddings_fst (encode : List String → List (List Rat))
    (articles : List Article) :
    (generate_embeddings encode articles).1
      = (articles.filter (fun a => 50 < (normalizedOf a).length)).map (fun a => a.id) := by
  rw [generate_embeddings_eq]
  by_cases h : (articles.filter (fun a => 50 < (normalizedOf a).length)).isEmpty
  · rw [if_pos h]
    rw [List.isEmpty_iff.mp h]
    rfl
  · rw [if_neg h]

/-- C7 (amended).  An article is included iff its normalized string is
strictly longer than 50 characters (the code tests `len(processed) > 50`,
so a normalized string of length exactly 50 is excluded): the returned ids
are exactly those of the qualifying articles, and the texts passed to the
encoder are exactly their normalized strings. -/
theorem c7_length_threshold_amended (encode : List String → List (List Rat))
    (articles : List Article) :
    (generate_embeddings encode articles).1
      = (articles.filter (fun a => 50 < (normalizedOf a).length)).map (fun a => a.id)
    ∧ ((articles.filter (fun a => 50 < (normalizedOf a).length)) ≠ [] →
        (generate_embeddings encode articles).2
          = encode ((articles.filter (fun a => 50 < (normalizedOf a).length)).map
              normalizedOf)) := by
  refine ⟨generate_embeddings_fst encode articles, ?_⟩
  intro hne
  rw [generate_embeddings_eq]
  rw [if_neg (by simpa [List.isEmpty_iff] using hne)]

/-- C7 (counterexample).  `c7article` normalizes to a string of length
exactly 50, yet it is excluded from the ids passed on for embedding,
refuting "every article whose normalized string has length at least 50 is
included". -/
theorem c7_counterexample :
    (normalizedOf c7article).length = 50
    ∧ (generate_embeddings encConst [c7article]).1 = [] := by
  decide

/-- C7 (witness): the amended theorem applied to one qualifying and one
excluded article. -/
theorem c7_witness :
    ((generate_embeddings encConst [⟨1, c4title, "", 0⟩, c7article]).1
      = ([⟨1, c4title, "", 0⟩, c7article].filter
          (fun a => 50 < (normalizedOf a).length)).map (fun a => a.id))
    ∧ ([⟨1, c4title, "", 0⟩, c7article].filter
        (fun a => 50 < (normalizedOf a).length) ≠ [])
    ∧ ((generate_embeddings encConst [⟨1, c4title, "", 0⟩, c7article]).2
        = encConst (([⟨1, c4title, "", 0⟩, c7article].filter
            (fun a => 50 < (normalizedOf a).length)).map normalizedOf)) :=
  ⟨(c7_length_threshold_amended encConst [⟨1, c4title, "", 0⟩, c7article]).1,
   by decide,
   (c7_length_threshold_amended encConst [⟨1, c4title, "", 0⟩, c7article]).2 (by decide)⟩

/-! ## C1 — noise floor -/

/-- C1 (counterexample).  `c1st` has one embedding row (fewer than the
minimum cluster size 3) but still holds a cluster from an earlier run; the
full run returns without touching the store, so the stored cluster state
after the run is not empty, refuting "the stored cluster state after the
run contains no clusters". -/
theorem c1_counterexample :
    (get_all_embeddings c1st).length < MIN_CLUSTER_SIZE
    ∧ (run_clustering idScale allNoise tfidfFail none c1st).1.clusters ≠ [] := by
  decide

/-- C1 (amended).  For a corpus with fewer embedding rows than the minimum
cluster size, a full run is a no-op that persists nothing: it returns
`some 0` (zero clusters created) and leaves the stored state exactly as it
was; and the clusterer itself marks every row of such a matrix as noise
(`-1`). -/
theorem c1_noise_floor_amended (scale : List (List Rat) → List (List Rat))
    (hdb : List (List Rat) → List Int)
    (tfidf : List String → Except Unit (List (String × Rat)))
    (failIdx : Option Nat) (st : DBState)
    (h : (get_all_embeddings st).length < MIN_CLUSTER_SIZE) :
    run_clustering scale hdb tfidf failIdx st = (st, some 0)
    ∧ ∀ vecs : List (List Rat), vecs.length < MIN_CLUSTER_SIZE →
        cluster_articles scale hdb vecs = List.replicate vecs.length (-1) := by
  constructor
  · unfold run_clustering
    cases hdata : get_all_embeddings st with
    | nil => simp
    | cons r rs =>
      rw [hdata] at h
      simp only [List.isEmpty_cons, Bool.false_eq_true, if_false, List.length_map]
      rw [if_pos h]
  · intro vecs hv
    unfold cluster_articles
    rw [if_pos hv]

/-- C1 (witness): the amended theorem applied to `c1st` (one embedding
row) and a two-row matrix. -/
theorem c1_witness :
    (get_all_embeddings c1st).length < MIN_CLUSTER_SIZE
    ∧ run_clustering idScale allNoise tfidfFail none c1st = (c1st, some 0)
    ∧ cluster_articles idScale allNoise [[], []] = [-1, -1] := by
  refine ⟨by decide, (c1_noise_floor_amended idScale allNoise tfidfFail none c1st
    (by decide)).1, ?_⟩
  have h2 := (c1_noise_floor_amended idScale allNoise tfidfFail none c1st
    (by decide)).2 [[], []] (by decide)
  simpa using h2

/-! ## C9 — per-article storage failures -/

/-- Unfolding the storage loop: one row is appended per non-failing pair,
in order, and the other tables are untouched. -/
lemma store_embeddings_fold (fails : Int → Bool) :
    ∀ (l : List (Int × List Rat)) (st : DBState),
      (l.foldl (fun s p => if fails p.1 then s else insert_embedding s p.1 p.2 EMBEDDING_MODEL) st)
        = { st with embeddings := st.embeddings ++ storedRows fails l } := by
  intro l
  induction l with
  | nil => intro st; simp [storedRows]
  | cons x xs ih =>
    intro st
    rw [List.foldl_cons]
    by_cases h : fails x.1
    · rw [if_pos h, ih]
      simp [storedRows, h]
    · rw [if_neg h, ih]
      simp [storedRows, h, insert_embedding, List.append_assoc]

lemma store_embeddings_spec (fails : Int → Bool) (st : DBState)
    (ids : List Int) (vecs : List (List Rat)) :
    store_embeddings fails st ids vecs
      = { st with embeddings := st.embeddings ++ storedRows fails (ids.zip vecs) } :=
  store_embeddings_fold fails (ids.zip vecs) st

lemma mem_storedRows {fails : Int → Bool} {l : List (Int × List Rat)} {e : EmbRow}
    (he : e ∈ storedRows fails l) : fails e.article_id = false := by
  obtain ⟨p, hp, rfl⟩ := List.mem_map.mp he
  have hok := (List.mem_filter.mp hp).2
  simpa using hok

/-- C9.  Storing a batch inserts exactly one row per pair whose article the
failure oracle does not hit — pairs after a failing one included, so one
per-article failure never aborts the batch — leaves the article table
unchanged, and every failed, previously unembedded article is still
reported by the unembedded-articles query afterwards (eligible for the next
run). -/
theorem c9_store_continues (fails : Int → Bool) (st : DBState)
    (ids : List Int) (vecs : List (List Rat)) :
    (store_embeddings fails st ids vecs).embeddings
      = st.embeddings ++ storedRows fails (ids.zip vecs)
    ∧ (store_embeddings fails st ids vecs).articles = st.articles
    ∧ ∀ a ∈ st.articles, fails a.id = true → hasEmbedding st a.id = false →
        a ∈ unembeddedArticles (store_embeddings fails st ids vecs) := by
  rw [store_embeddings_spec]
  refine ⟨rfl, rfl, ?_⟩
  intro a ha hf hemb
  have hany : hasEmbedding
      { st with embeddings := st.embeddings ++ storedRows fails (ids.zip vecs) } a.id
        = false := by
    unfold hasEmbedding at hemb ⊢
    simp only [List.any_append, Bool.or_eq_false_iff]
    refine ⟨hemb, ?_⟩
    simp only [List.any_eq_false]
    intro e he
    have hfe := mem_storedRows he
    simp only [beq_iff_eq]
    intro heq
    rw [heq, hf] at hfe
    exact absurd hfe (by decide)
  unfold unembeddedArticles
  rw [List.mem_filter]
  exact ⟨ha, by simp [hany]⟩

/-- C9 (witness): a batch of three pairs whose middle article fails. -/
theorem c9_witness :
    ((store_embeddings (fun i => i == 2) ⟨[⟨2, "t", "x", 0⟩], [], [], []⟩
        [1, 2, 3] [[], [], []]).embeddings
      = [⟨1, [], EMBEDDING_MODEL⟩, ⟨3, [], EMBEDDING_MODEL⟩])
    ∧ (⟨2, "t", "x", 0⟩ : Article) ∈ unembeddedArticles
        (store_embeddings (fun i => i == 2) ⟨[⟨2, "t", "x", 0⟩], [], [], []⟩
          [1, 2, 3] [[], [], []]) := by
  refine ⟨?_, (c9_store_continues (fun i => i == 2) ⟨[⟨2, "t", "x", 0⟩], [], [], []⟩
    [1, 2, 3] [[], [], []]).2.2 ⟨2, "t", "x", 0⟩ (by decide) (by decide) (by decide)⟩
  decide

/-! ## C2 and C10 — the atomic replace -/

/-- A successful execution applies every statement in order. -/
lemma execOps_success (failIdx : Option Nat) :
    ∀ (ops : List DbOp) (i : Nat) (st st' : DBState),
      execOps failIdx i st ops = (st', true) → st' = ops.foldl applyOp st := by
  intro ops
  induction ops with
  | nil =>
    intro i st st' h
    exact (congrArg Prod.fst h).symm
  | cons op rest ih =>
    intro i st st' h
    rw [execOps] at h
    by_cases hf : failIdx = some i
    · rw [if_pos hf] at h
      exact Bool.noConfusion (congrArg Prod.snd h)
    · rw [if_neg hf] at h
      exact ih (i + 1) (applyOp st op) st' h

/-- The execution fails exactly when the failure oracle points inside the
statement sequence. -/
lemma execOps_fail_iff (failIdx : Option Nat) :
    ∀ (ops : List DbOp) (i : Nat) (st : DBState),
      (execOps failIdx i st ops).2 = false
        ↔ ∃ k, failIdx = some k ∧ i ≤ k ∧ k < i + ops.length := by
  intro ops
  induction ops with
  | nil =>
    intro i st
    constructor
    · intro h
      exact Bool.noConfusion h
    · rintro ⟨k, _, h1, h2⟩
      simp only [List.length_nil, Nat.add_zero] at h2
      omega
  | cons op rest ih =>
    intro i st
    rw [execOps]
    by_cases hf : failIdx = some i
    · rw [if_pos hf]
      simp only [List.length_cons]
      constructor
      · intro _
        exact ⟨i, hf, Nat.le_refl i, by omega⟩
      · intro _
        trivial
    · rw [if_neg hf]
      rw [ih (i + 1) (applyOp st op)]
      simp only [List.length_cons]
      constructor
      · rintro ⟨k, hk, h1, h2⟩
        exact ⟨k, hk, by omega, by omega⟩
      · rintro ⟨k, hk, h1, h2⟩
        have hki : k ≠ i := fun he => hf (he ▸ hk)
        exact ⟨k, hk, by omega, by omega⟩

/-- Folding the `insCluster` statements appends the cluster rows. -/
lemma foldl_insClusters :
    ∀ (ls : List (Int × String)) (st : DBState),
      (ls.map (fun p => DbOp.insCluster p.1 p.2)).foldl applyOp st
        = { st with clusters := st.clusters ++ ls.map (fun p => ⟨p.1, p.2⟩) } := by
  intro ls
  induction ls with
  | nil => intro st; simp
  | cons x xs ih =>
    intro st
    simp only [List.map_cons, List.foldl_cons, applyOp, ih, List.map_cons, List.append_assoc]
    rfl

/-- Folding the `insMember` statements appends one membership row per
non-noise assignment. -/
lemma foldl_insMembers :
    ∀ (ms : List (Int × Int)) (st : DBState),
      ((ms.filterMap (fun p => if 0 ≤ p.2 then some (DbOp.insMember p.2 p.1) else none)).foldl
          applyOp st)
        = { st with cluster_members := st.cluster_members
            ++ ms.filterMap (fun p => if 0 ≤ p.2 then some (⟨p.2, p.1⟩ : MemberRow) else none) } := by
  intro ms
  induction ms with
  | nil => intro st; simp
  | cons x xs ih =>
    intro st
    by_cases h : (0 : Int) ≤ x.2
    · simp only [List.filterMap_cons, if_pos h, List.foldl_cons, applyOp, ih, List.append_assoc]
      rfl
    · simp only [List.filterMap_cons, if_neg h, ih]

/-- Case analysis of `update_clusters`: a committed run installs exactly
the replaced state; a failed run rolls back to the input state; and the run
fails exactly when the store failure hits one of its statements. -/
lemma update_clusters_spec (failIdx : Option Nat) (st : DBState)
    (a : List (Int × Int)) (l : List (Int × String)) :
    ((update_clusters failIdx st a l).2 = true →
        (update_clusters failIdx st a l).1 = replacedState st a l)
    ∧ ((update_clusters failIdx st a l).2 = false → (update_clusters failIdx st a l).1 = st)
    ∧ ((update_clusters failIdx st a l).2 = false
        ↔ ∃ k, failIdx = some k ∧ k < (opsFor a l).length) := by
  have hiff := execOps_fail_iff failIdx (opsFor a l) 0 st
  cases hres : execOps failIdx 0 st (opsFor a l) with
  | mk st' ok =>
    rw [hres] at hiff
    have hu : update_clusters failIdx st a l
        = (if ok = true then (st', ok) else (st, false)) := by
      show (if (execOps failIdx 0 st (opsFor a l)).2 = true
            then execOps failIdx 0 st (opsFor a l) else (st, false))
          = (if ok = true then (st', ok) else (st, false))
      rw [hres]
    cases ok with
    | false =>
      rw [hu]
      refine ⟨fun h => Bool.noConfusion h, fun _ => rfl, ?_⟩
      constructor
      · intro _
        obtain ⟨k, hk, _, h2⟩ := hiff.mp rfl
        exact ⟨k, hk, by omega⟩
      · intro _
        rfl
    | true =>
      rw [hu]
      have hfold := execOps_success failIdx (opsFor a l) 0 st st' hres
      refine ⟨fun _ => ?_, fun h => Bool.noConfusion h, ?_⟩
      · show st' = replacedState st a l
        rw [hfold]
        unfold opsFor
        rw [List.foldl_append, List.foldl_append]
        simp only [List.foldl_cons, List.foldl_nil, applyOp]
        rw [foldl_insClusters, foldl_insMembers]
        simp [replacedState]
      · constructor
        · intro h
          exact Bool.noConfusion h
        · rintro ⟨k, hk, hlt⟩
          have hcontra := hiff.mpr ⟨k, hk, Nat.zero_le k, by omega⟩
          exact Bool.noConfusion hcontra

/-- C2.  The delete-then-insert of `update_clusters` runs inside one
transaction (the `sqlite3` connection context manager): if the store fails
at any statement, the persisted state is rolled back to exactly the prior
state and the run reports failure, and the run reports failure exactly when
the failure hits one of its statements; when it commits, the stored
clusters and memberships are exactly the new ones and the other tables are
unchanged. -/
theorem c2_replace_atomic (failIdx : Option Nat) (st : DBState)
    (a : List (Int × Int)) (l : List (Int × String)) :
    ((update_clusters failIdx st a l).2 = true →
        (update_clusters failIdx st a l).1 = replacedState st a l)
    ∧ ((update_clusters failIdx st a l).2 = false → (update_clusters failIdx st a l).1 = st)
    ∧ ((update_clusters failIdx st a l).2 = false
        ↔ ∃ k, failIdx = some k ∧ k < (opsFor a l).length) :=
  update_clusters_spec failIdx st a l

/-- C2 (witness): a replace that fails at the second statement (the cluster
table delete) leaves `c2st` untouched; the same replace with no failure
commits the full new state. -/
theorem c2_witness :
    ((update_clusters (some 1) c2st [(9, 0)] [(0, "New")]).1 = c2st)
    ∧ ((update_clusters none c2st [(9, 0)] [(0, "New")]).1
        = replacedState c2st [(9, 0)] [(0, "New")]) :=
  ⟨(c2_replace_atomic (some 1) c2st [(9, 0)] [(0, "New")]).2.1 (by decide),
   (c2_replace_atomic none c2st [(9, 0)] [(0, "New")]).1 (by decide)⟩

/-- C10.  Whatever the caller passes, `update_clusters` itself never
inserts a membership row with a negative cluster id: every membership row
present after the call either was already present before (a failed run
leaves the old rows) or has a non-negative cluster id; and after a
committed run every membership row has a non-negative cluster id. -/
theorem c10_no_negative_members (failIdx : Option Nat) (st : DBState)
    (a : List (Int × Int)) (l : List (Int × String)) :
    (∀ m ∈ (update_clusters failIdx st a l).1.cluster_members,
      m ∈ st.cluster_members ∨ 0 ≤ m.cluster_id)
    ∧ ((update_clusters failIdx st a l).2 = true →
        ∀ m ∈ (update_clusters failIdx st a l).1.cluster_members, 0 ≤ m.cluster_id) := by
  have hspec := update_clusters_spec failIdx st a l
  have hmem : ∀ m ∈ (replacedState st a l).cluster_members, (0 : Int) ≤ m.cluster_id := by
    intro m hm
    simp only [replacedState] at hm
    obtain ⟨p, _, hp⟩ := List.mem_filterMap.mp hm
    by_cases h : (0 : Int) ≤ p.2
    · rw [if_pos h] at hp
      cases hp
      exact h
    · rw [if_neg h] at hp
      exact absurd hp (by simp)
  constructor
  · intro m hm
    cases hok : (update_clusters failIdx st a l).2 with
    | false =>
      rw [hspec.2.1 hok] at hm
      exact Or.inl hm
    | true =>
      rw [hspec.1 hok] at hm
      exact Or.inr (hmem m hm)
  · intro hok m hm
    rw [hspec.1 hok] at hm
    exact hmem m hm

/-- C10 (witness): an assignment mapping article 7 to the noise label `-1`
and article 8 to cluster 2 yields only the non-negative membership. -/
theorem c10_witness :
    ((⟨2, 8⟩ : MemberRow) ∈ (⟨[], [], [], []⟩ : DBState).cluster_members ∨
      (0 : Int) ≤ (⟨2, 8⟩ : MemberRow).cluster_id)
    ∧ (0 : Int) ≤ (⟨2, 8⟩ : MemberRow).cluster_id :=
  ⟨(c10_no_negative_members none ⟨[], [], [], []⟩ [(7, -1), (8, 2)] [(2, "x")]).1
      ⟨2, 8⟩ (by decide),
   (c10_no_negative_members none ⟨[], [], [], []⟩ [(7, -1), (8, 2)] [(2, "x")]).2
      (by decide) ⟨2, 8⟩ (by decide)⟩

/-! ## C5 — the model-name filter that is not there -/

/-- C5 (counterexample).  `c5st` holds one article, embedded only under
the model name `"other-model"`, long enough to qualify; running the
embedding store under the active model changes nothing and creates no row
keyed by the active model, because `get_articles_without_embeddings` joins
only on `article_id` and ignores `model_name`. -/
theorem c5_counterexample :
    50 < (normalizedOf ⟨1, ⟨List.replicate 60 'a'⟩, "", 0⟩).length
    ∧ (generate_embeddings_for_unprocessed encConst noFail c5st).1 = c5st
    ∧ (generate_embeddings_for_unprocessed encConst noFail c5st).2 = 0
    ∧ c5st.embeddings.any
        (fun e => e.article_id == 1 && e.model_name == EMBEDDING_MODEL) = false := by
  decide

/-- C5 (amended).  The embedding store skips exactly those articles already
present in the Embedding table under **any** model name: every embedding
row present after a run either was present before, or belongs to an article
that previously had no embedding row at all.  In particular an article
embedded only under a different model name gains no additional row. -/
theorem c5_skip_any_model_amended (encode : List String → List (List Rat))
    (fails : Int → Bool) (st : DBState) :
    ∀ r ∈ (generate_embeddings_for_unprocessed encode fails st).1.embeddings,
      r ∈ st.embeddings ∨ ∀ e ∈ st.embeddings, e.article_id ≠ r.article_id := by
  intro r hr
  unfold generate_embeddings_for_unprocessed at hr
  by_cases h1 : (get_articles_without_embeddings st 50).isEmpty
  · rw [if_pos h1] at hr
    exact Or.inl hr
  · rw [if_neg h1] at hr
    by_cases h2 : (generate_embeddings encode (get_articles_without_embeddings st 50)).1.isEmpty
    · rw [if_pos h2] at hr
      exact Or.inl hr
    · rw [if_neg h2] at hr
      simp only [store_embeddings_spec] at hr
      rcases List.mem_append.mp hr with hold | hnew
      · exact Or.inl hold
      · refine Or.inr ?_
        obtain ⟨p, hp, rfl⟩ := List.mem_map.mp hnew
        have hpz : p ∈ ((generate_embeddings encode (get_articles_without_embeddings st 50)).1.zip
            (generate_embeddings encode (get_articles_without_embeddings st 50)).2) :=
          List.mem_filter.mp hp |>.1
        have hid : p.1 ∈ (generate_embeddings encode (get_articles_without_embeddings st 50)).1 :=
          (List.of_mem_zip hpz).1
        rw [generate_embeddings_fst encode (get_articles_without_embeddings st 50)] at hid
        obtain ⟨a, ha, haid⟩ := List.mem_map.mp hid
        have ha50 : a ∈ unembeddedArticles st :=
          List.mem_of_mem_take (List.mem_of_mem_filter ha)
        have hnoemb : hasEmbedding st a.id = false := by
          have := (List.mem_filter.mp ha50).2
          simpa using this
        intro e he
        have : e.article_id ≠ a.id := by
          intro hc
          have : st.embeddings.any (fun e => e.article_id == a.id) = true :=
            List.any_eq_true.mpr ⟨e, he, by simpa using hc⟩
          rw [hasEmbedding] at hnoemb
          rw [this] at hnoemb
          exact Bool.noConfusion hnoemb

        simpa [haid] using this

/-- C5 (witness): the amended theorem applied to the row surviving a run
on `c5st`. -/
theorem c5_witness :
    (⟨1, [], "other-model"⟩ : EmbRow) ∈ c5st.embeddings
    ∨ ∀ e ∈ c5st.embeddings, e.article_id ≠ (⟨1, [], "other-model"⟩ : EmbRow).article_id :=
  c5_skip_any_model_amended encConst noFail c5st ⟨1, [], "other-model"⟩ (by decide)

/-! ## C6 — label generation -/

lemma mem_insertByWeight {p q : String × Rat} :
    ∀ {l : List (String × Rat)}, q ∈ insertByWeight p l → q = p ∨ q ∈ l := by
  intro l
  induction l with
  | nil =>
    intro h
    rw [insertByWeight] at h
    exact Or.inl (List.mem_singleton.mp h)
  | cons x xs ih =>
    intro h
    rw [insertByWeight] at h
    by_cases hle : x.2 ≤ p.2
    · rw [if_pos hle] at h
      rcases List.mem_cons.mp h with h1 | h2
      · exact Or.inl h1
      · exact Or.inr h2
    · rw [if_neg hle] at h
      rcases List.mem_cons.mp h with h1 | h2
      · exact Or.inr (List.mem_cons.mpr (Or.inl h1))
      · rcases ih h2 with h3 | h4
        · exact Or.inl h3
        · exact Or.inr (List.mem_cons.mpr (Or.inr h4))

lemma mem_sortByWeightDesc {q : String × Rat} :
    ∀ {l : List (String × Rat)}, q ∈ sortByWeightDesc l → q ∈ l := by
  intro l
  induction l with
  | nil =>
    intro h
    rw [sortByWeightDesc] at h
    exact h
  | cons x xs ih =>
    intro h
    rw [sortByWeightDesc] at h
    rcases mem_insertByWeight h with h1 | h2
    · exact h1 ▸ List.mem_cons_self x xs
    · exact List.mem_cons.mpr (Or.inr (ih h2))

/-- The fallback cases of the per-cluster loop: when the term model fails
to fit, or no term has positive summed weight, the label is the generic
`Cluster <cluster_id>` placeholder. -/
lemma labelOneCluster_fallback (tfidf : List String → Except Unit (List (String × Rat)))
    (c : Int) (texts : List String)
    (h : tfidf texts = Except.error ()
      ∨ ∃ terms, tfidf texts = Except.ok terms ∧ ∀ p ∈ terms, p.2 ≤ 0) :
    labelOneCluster tfidf c texts = "Cluster " ++ toString c := by
  unfold labelOneCluster
  by_cases he : texts.isEmpty
  · rw [if_pos he]
  · rw [if_neg he]
    rcases h with herr | ⟨terms, hok, hall⟩
    · rw [herr]
    · rw [hok]
      have hfil : ((sortByWeightDesc terms).take 5).filter (fun p => 0 < p.2) = [] := by
        rw [List.filter_eq_nil_iff]
        intro p hp
        have hmem : p ∈ terms := mem_sortByWeightDesc (List.mem_of_mem_take hp)
        have := hall p hmem
        simp only [decide_eq_true_eq]
        exact not_lt.mpr this
      simp only [hfil]
      rfl

lemma assocFind_none_iff_any (c : Int) {β : Type} :
    ∀ acc : List (Int × β), assocFind c acc = none ↔ acc.any (fun p => p.1 = c) = false := by
  intro acc
  induction acc with
  | nil => simp [assocFind]
  | cons p ps ih =>
    rw [assocFind, List.any_cons]
    by_cases hp : p.1 = c
    · simp [hp]
    · simp [hp, ih]

lemma assocFind_map_update (c : Int) (a : LabArticle) :
    ∀ acc : List (Int × List LabArticle), acc.any (fun p => p.1 = c) = true →
      assocFind c (acc.map (fun p => if p.1 = c then (p.1, p.2 ++ [a]) else p))
        = some (((assocFind c acc).getD []) ++ [a]) := by
  intro acc
  induction acc with
  | nil =>
    intro h
    exact Bool.noConfusion h
  | cons p ps ih =>
    intro h
    rw [List.map_cons]
    by_cases hp : p.1 = c
    · rw [if_pos hp]
      rw [assocFind, if_pos (show (p.1, p.2 ++ [a]).1 = c from hp)]
      rw [assocFind, if_pos hp]
      rfl
    · have hps : ps.any (fun p => p.1 = c) = true := by
        rw [List.any_cons] at h
        simpa [hp] using h
      rw [if_neg hp]
      rw [assocFind, if_neg hp]
      rw [assocFind, if_neg hp]
      exact ih hps

lemma assocFind_append_single (c : Int) (a : LabArticle) :
    ∀ acc : List (Int × List LabArticle), assocFind c acc = none →
      assocFind c (acc ++ [(c, [a])]) = some [a] := by
  intro acc
  induction acc with
  | nil =>
    intro _
    simp [assocFind]
  | cons p ps ih =>
    intro h
    rw [assocFind] at h
    by_cases hp : p.1 = c
    · rw [if_pos hp] at h
      exact Option.noConfusion h
    · rw [if_neg hp] at h
      rw [List.cons_append, assocFind, if_neg hp]
      exact ih h

lemma assocFind_addToGroup_eq (c : Int) (a : LabArticle)
    (acc : List (Int × List LabArticle)) :
    assocFind c (addToGroup acc c a) = some (((assocFind c acc).getD []) ++ [a]) := by
  unfold addToGroup
  by_cases hany : acc.any (fun p => p.1 = c) = true
  · rw [if_pos hany]
    exact assocFind_map_update c a acc hany
  · rw [if_neg hany]
    have hnone : assocFind c acc = none :=
      (assocFind_none_iff_any c acc).mpr (Bool.eq_false_iff.mpr hany)
    rw [assocFind_append_single c a acc hnone, hnone]
    rfl

lemma assocFind_map_update_ne {c l : Int} (hne : l ≠ c) (a : LabArticle) :
    ∀ acc : List (Int × List LabArticle),
      assocFind c (acc.map (fun p => if p.1 = l then (p.1, p.2 ++ [a]) else p))
        = assocFind c acc := by
  intro acc
  induction acc with
  | nil => rfl
  | cons p ps ih =>
    rw [List.map_cons]
    by_cases hp : p.1 = l
    · have hpc : ¬ p.1 = c := by
        rw [hp]
        exact hne
      rw [if_pos hp]
      rw [assocFind, if_neg (show ¬ (p.1, p.2 ++ [a]).1 = c from hpc)]
      rw [assocFind, if_neg hpc]
      exact ih
    · rw [if_neg hp]
      rw [assocFind, assocFind]
      by_cases hpc : p.1 = c
      · rw [if_pos hpc, if_pos hpc]
      · rw [if_neg hpc, if_neg hpc]
        exact ih

lemma assocFind_append_ne {c l : Int} (hne : l ≠ c) (a : LabArticle) :
    ∀ acc : List (Int × List LabArticle),
      assocFind c (acc ++ [(l, [a])]) = assocFind c acc := by
  intro acc
  induction acc with
  | nil =>
    simp [assocFind, hne]
  | cons p ps ih =>
    rw [List.cons_append, assocFind, assocFind]
    by_cases hpc : p.1 = c
    · rw [if_pos hpc, if_pos hpc]
    · rw [if_neg hpc, if_neg hpc]
      exact ih

lemma assocFind_addToGroup_ne {c l : Int} (hne : l ≠ c) (a : LabArticle)
    (acc : List (Int × List LabArticle)) :
    assocFind c (addToGroup acc l a) = assocFind c acc := by
  unfold addToGroup
  by_cases hany : acc.any (fun p => p.1 = l) = true
  · rw [if_pos hany]
    exact assocFind_map_update_ne hne a acc
  · rw [if_neg hany]
    exact assocFind_append_ne hne a acc

/-- Unfolding the grouping fold: the bucket of a non-noise key `c` collects
exactly the first components of the pairs labelled `c`, in order. -/
lemma groupFold_find (c : Int) (hc : 0 ≤ c) :
    ∀ (pairs : List (LabArticle × Int)) (acc : List (Int × List LabArticle)),
      assocFind c (pairs.foldl
          (fun acc p => if 0 ≤ p.2 then addToGroup acc p.2 p.1 else acc) acc)
        = match assocFind c acc with
          | some v => some (v ++ (pairs.filter (fun p => p.2 = c)).map Prod.fst)
          | none =>
            if (pairs.filter (fun p => p.2 = c)).isEmpty then none
            else some ((pairs.filter (fun p => p.2 = c)).map Prod.fst) := by
  intro pairs
  induction pairs with
  | nil =>
    intro acc
    cases hf : assocFind c acc with
    | some v => simp [hf]
    | none => simp [hf]
  | cons p ps ih =>
    intro acc
    rw [List.foldl_cons]
    by_cases hpc : p.2 = c
    · rw [if_pos (show (0 : Int) ≤ p.2 by rw [hpc]; exact hc), hpc]
      rw [ih (addToGroup acc c p.1)]
      rw [assocFind_addToGroup_eq c p.1 acc]
      cases hf : assocFind c acc with
      | some v =>
        simp only [hf, Option.getD_some, List.filter_cons, hpc]
        simp [List.append_assoc]
      | none =>
        simp only [hf, Option.getD_none, List.nil_append, List.filter_cons, hpc]
        simp
    · have hstep : (if 0 ≤ p.2 then addToGroup acc p.2 p.1 else acc) = acc
          ∨ (if 0 ≤ p.2 then addToGroup acc p.2 p.1 else acc) = addToGroup acc p.2 p.1 := by
        by_cases h0 : (0 : Int) ≤ p.2
        · exact Or.inr (if_pos h0)
        · exact Or.inl (if_neg h0)
      have hfind : assocFind c (if 0 ≤ p.2 then addToGroup acc p.2 p.1 else acc)
          = assocFind c acc := by
        rcases hstep with h | h
        · rw [h]
        · rw [h]
          exact assocFind_addToGroup_ne hpc p.1 acc
      rw [ih]
      rw [hfind]
      simp only [List.filter_cons, hpc]
      simp [hpc]

/-- Keys survive the per-group labelling map. -/
lemma assocFind_map_label {β γ : Type} (f : Int → β → γ) (c : Int) :
    ∀ l : List (Int × β),
      assocFind c (l.map (fun g => (g.1, f g.1 g.2))) = (assocFind c l).map (f c) := by
  intro l
  induction l with
  | nil => rfl
  | cons p ps ih =>
    rw [List.map_cons, assocFind, assocFind]
    by_cases hp : p.1 = c
    · rw [if_pos hp, if_pos hp, hp]
      rfl
    · rw [if_neg hp, if_neg hp]
      exact ih

lemma mem_zip_of_mem_right {α β : Type} :
    ∀ (ls : List β) (as' : List α) (c : β), c ∈ ls → ls.length ≤ as'.length →
      ∃ x, (x, c) ∈ as'.zip ls := by
  intro ls
  induction ls with
  | nil =>
    intro as' c hc _
    exact absurd hc (List.not_mem_nil c)
  | cons b bs ih =>
    intro as' c hc hlen
    cases as' with
    | nil =>
      simp only [List.length_nil, List.length_cons] at hlen
      omega
    | cons a as2 =>
      rcases List.mem_cons.mp hc with h1 | h2
      · exact ⟨a, by simp [h1]⟩
      · obtain ⟨x, hx⟩ := ih as2 c h2 (by simpa [Nat.succ_le_succ_iff] using hlen)
        exact ⟨x, List.mem_cons.mpr (Or.inr hx)⟩

/-- C6.  For every non-noise cluster id `c` occurring among the labels, the
label dict binds `c` to a string computed from the member documents of `c`
alone (`labelOneCluster` — label generation is total and per-cluster
independent); and when the term model fails to fit on those documents, or
no term has positive weight, that string is exactly `Cluster <c>`. -/
theorem c6_label_fallback (tfidf : List String → Except Unit (List (String × Rat)))
    (articles : List LabArticle) (cluster_labels : List Int)
    (c : Int) (hc : 0 ≤ c) (hmem : c ∈ cluster_labels)
    (hlen : cluster_labels.length = articles.length) :
    assocFind c (generate_cluster_labels tfidf articles cluster_labels)
      = some (labelOneCluster tfidf c (memberTexts articles cluster_labels c))
    ∧ ((tfidf (memberTexts articles cluster_labels c) = Except.error ()
        ∨ ∃ terms, tfidf (memberTexts articles cluster_labels c) = Except.ok terms
            ∧ ∀ p ∈ terms, p.2 ≤ 0) →
      labelOneCluster tfidf c (memberTexts articles cluster_labels c)
        = "Cluster " ++ toString c) := by
  constructor
  · unfold generate_cluster_labels groupByLabel
    rw [assocFind_map_label
      (fun (cid : Int) (v : List LabArticle) => labelOneCluster tfidf cid (v.map labelText)) c]
    rw [groupFold_find c hc (articles.zip cluster_labels) []]
    have hocc : ∃ x, (x, c) ∈ articles.zip cluster_labels :=
      mem_zip_of_mem_right cluster_labels articles c hmem (Nat.le_of_eq hlen)
    obtain ⟨x, hx⟩ := hocc
    have hne : ((articles.zip cluster_labels).filter (fun p => p.2 = c)).isEmpty = false := by
      have hxf : (x, c) ∈ (articles.zip cluster_labels).filter (fun p => p.2 = c) :=
        List.mem_filter.mpr ⟨hx, by simp⟩
      cases hfe : (articles.zip cluster_labels).filter (fun p => p.2 = c) with
      | nil => rw [hfe] at hxf; exact absurd hxf (List.not_mem_nil _)
      | cons y ys => rfl
    simp only [assocFind, hne, Bool.false_eq_true, if_false, Option.map_some]
    rfl
  · exact labelOneCluster_fallback tfidf c (memberTexts articles cluster_labels c)

/-- C6 (witness): one single-member cluster (id 0) under a term model that
fails to fit receives exactly the fallback label `Cluster 0`. -/
theorem c6_witness :
    assocFind 0 (generate_cluster_labels tfidfFail [⟨"a", "b"⟩] [0])
      = some (labelOneCluster tfidfFail 0 (memberTexts [⟨"a", "b"⟩] [0] 0))
    ∧ labelOneCluster tfidfFail 0 (memberTexts [⟨"a", "b"⟩] [0] 0)
      = "Cluster " ++ toString (0 : Int) :=
  ⟨(c6_label_fallback tfidfFail [⟨"a", "b"⟩] [0] 0 (by decide) (by decide) (by decide)).1,
   (c6_label_fallback tfidfFail [⟨"a", "b"⟩] [0] 0 (by decide) (by decide) (by decide)).2
     (Or.inl rfl)⟩

/-! ## C3 — invariants after a successful replace -/

lemma update_clusters_none_commits (st : DBState) (a : List (Int × Int))
    (l : List (Int × String)) : (update_clusters none st a l).2 = true := by
  have hspec := (update_clusters_spec none st a l).2.2
  cases hok : (update_clusters none st a l).2 with
  | true => rfl
  | false =>
    obtain ⟨k, hk, _⟩ := hspec.mp hok
    exact Option.noConfusion hk

lemma mem_keys_of_assocFind {β : Type} {c : Int} {v : β} :
    ∀ {l : List (Int × β)}, assocFind c l = some v → c ∈ l.map Prod.fst := by
  intro l
  induction l with
  | nil =>
    intro h
    exact Option.noConfusion h
  | cons p ps ih =>
    intro h
    rw [assocFind] at h
    rw [List.map_cons]
    by_cases hp : p.1 = c
    · exact List.mem_cons.mpr (Or.inl hp.symm)
    · rw [if_neg hp] at h
      exact List.mem_cons.mpr (Or.inr (ih h))

lemma dictInsert_map_fst_nodup {l : List (Int × Int)} (k v : Int)
    (h : (l.map Prod.fst).Nodup) : ((dictInsert l k v).map Prod.fst).Nodup := by
  unfold dictInsert
  by_cases hany : l.any (fun p => p.1 = k) = true
  · rw [if_pos hany]
    have heq : (l.map (fun p => if p.1 = k then (k, v) else p)).map Prod.fst
        = l.map Prod.fst := by
      rw [List.map_map]
      apply List.map_congr_left
      intro p _
      by_cases hp : p.1 = k
      · simp [hp]
      · simp [hp]
    rw [heq]
    exact h
  · rw [if_neg hany]
    rw [List.map_append]
    have hk : k ∉ l.map Prod.fst := by
      intro hmem
      obtain ⟨p, hp, hpk⟩ := List.mem_map.mp hmem
      exact hany (List.any_eq_true.mpr ⟨p, hp, by simpa using hpk⟩)
    rw [List.nodup_append]
    exact ⟨h, List.nodup_singleton k, by
      intro x hx hxs
      simp only [List.map_cons, List.map_nil, List.mem_singleton] at hxs
      exact hk (hxs ▸ hx)⟩

lemma mem_dictInsert {q : Int × Int} {l : List (Int × Int)} {k v : Int}
    (h : q ∈ dictInsert l k v) : q = (k, v) ∨ q ∈ l := by
  unfold dictInsert at h
  by_cases hany : l.any (fun p => p.1 = k) = true
  · rw [if_pos hany] at h
    obtain ⟨p, hp, hpq⟩ := List.mem_map.mp h
    by_cases hpk : p.1 = k
    · rw [if_pos hpk] at hpq
      exact Or.inl hpq.symm
    · rw [if_neg hpk] at hpq
      exact Or.inr (hpq ▸ hp)
  · rw [if_neg hany] at h
    rcases List.mem_append.mp h with h1 | h2
    · exact Or.inr h1
    · exact Or.inl (List.mem_singleton.mp h2)

/-- The assignment-building fold keeps the keys unique. -/
lemma mkAssignments_fold_nodup :
    ∀ (pairs : List (Int × Int)) (acc : List (Int × Int)),
      (acc.map Prod.fst).Nodup →
      (((pairs.foldl (fun acc p => if 0 ≤ p.2 then dictInsert acc p.1 p.2 else acc) acc)).map
        Prod.fst).Nodup := by
  intro pairs
  induction pairs with
  | nil =>
    intro acc h
    exact h
  | cons p ps ih =>
    intro acc h
    rw [List.foldl_cons]
    by_cases h0 : (0 : Int) ≤ p.2
    · rw [if_pos h0]
      exact ih (dictInsert acc p.1 p.2) (dictInsert_map_fst_nodup p.1 p.2 h)
    · rw [if_neg h0]
      exact ih acc h

/-- Every entry of the assignment fold is an original pair with a
non-noise label (or came from the accumulator). -/
lemma mem_mkAssignments_fold :
    ∀ (pairs : List (Int × Int)) (acc : List (Int × Int)) (q : Int × Int),
      q ∈ pairs.foldl (fun acc p => if 0 ≤ p.2 then dictInsert acc p.1 p.2 else acc) acc →
      q ∈ acc ∨ (q ∈ pairs ∧ 0 ≤ q.2) := by
  intro pairs
  induction pairs with
  | nil =>
    intro acc q h
    exact Or.inl h
  | cons p ps ih =>
    intro acc q h
    rw [List.foldl_cons] at h
    by_cases h0 : (0 : Int) ≤ p.2
    · rw [if_pos h0] at h
      rcases ih (dictInsert acc p.1 p.2) q h with h1 | h2
      · rcases mem_dictInsert h1 with h3 | h4
        · refine Or.inr ⟨?_, ?_⟩
          · rw [h3]
            exact List.mem_cons_self p ps
          · rw [h3]
            exact h0
        · exact Or.inl h4
      · exact Or.inr ⟨List.mem_cons.mpr (Or.inr h2.1), h2.2⟩
    · rw [if_neg h0] at h
      rcases ih acc q h with h1 | h2
      · exact Or.inl h1
      · exact Or.inr ⟨List.mem_cons.mpr (Or.inr h2.1), h2.2⟩

/-- Transfer of an aligned zip pair between two images of the same list. -/
lemma zip_map_mem {γ α β δ : Type} (f : γ → α) (g : γ → β) :
    ∀ (data : List γ) (ls : List δ) (a : α) (c : δ),
      (a, c) ∈ (data.map f).zip ls → ∃ d, (g d, c) ∈ (data.map g).zip ls := by
  intro data
  induction data with
  | nil =>
    intro ls a c h
    exact absurd h (List.not_mem_nil _)
  | cons d ds ih =>
    intro ls a c h
    cases ls with
    | nil => exact absurd h (List.not_mem_nil _)
    | cons x xs =>
      rw [List.map_cons, List.zip_cons_cons] at h
      rcases List.mem_cons.mp h with h1 | h2
      · have hx : x = c := (congrArg Prod.snd h1).symm
        exact ⟨d, by rw [List.map_cons, List.zip_cons_cons, hx]; exact List.mem_cons_self _ _⟩
      · obtain ⟨e, he⟩ := ih xs a c h2
        exact ⟨e, by rw [List.map_cons, List.zip_cons_cons]; exact List.mem_cons.mpr (Or.inr he)⟩

/-- The membership rows derived from the assignment list carry a sublist of
its keys as article ids. -/
lemma memberRows_article_ids :
    ∀ l : List (Int × Int),
      ((l.filterMap (fun p => if 0 ≤ p.2 then some (⟨p.2, p.1⟩ : MemberRow) else none)).map
        (fun mr => mr.article_id)).Sublist (l.map Prod.fst) := by
  intro l
  induction l with
  | nil => exact List.Sublist.refl []
  | cons p ps ih =>
    rw [List.filterMap_cons, List.map_cons]
    by_cases h0 : (0 : Int) ≤ p.2
    · rw [if_pos h0]
      rw [List.map_cons]
      exact List.Sublist.cons₂ p.1 ih
    · rw [if_neg h0]
      exact List.Sublist.cons p.1 ih

lemma clusters_ids_eq (L : List (Int × String)) :
    ((L.map (fun p => (⟨p.1, p.2⟩ : ClusterRow))).map (fun cr => cr.cluster_id))
      = L.map Prod.fst := by
  rw [List.map_map]
  rfl

/-- On the success path (enough rows, no store failure) the run commits
exactly the replaced state built from its assignment dict and label dict. -/
lemma run_clustering_success (scale : List (List Rat) → List (List Rat))
    (hdb : List (List Rat) → List Int)
    (tfidf : List String → Except Unit (List (String × Rat))) (st : DBState)
    (hne : (get_all_embeddings st).isEmpty = false)
    (hged : ¬ ((get_all_embeddings st).map (fun r => r.vector)).length < MIN_CLUSTER_SIZE) :
    run_clustering scale hdb tfidf none st
      = ((update_clusters none st
            (mkAssignments ((get_all_embeddings st).map (fun r => r.article_id))
              (cluster_articles scale hdb ((get_all_embeddings st).map (fun r => r.vector))))
            (generate_cluster_labels tfidf ((get_all_embeddings st).map toLabArticle)
              (cluster_articles scale hdb ((get_all_embeddings st).map (fun r => r.vector))))).1,
         some (generate_cluster_labels tfidf ((get_all_embeddings st).map toLabArticle)
            (cluster_articles scale hdb
              ((get_all_embeddings st).map (fun r => r.vector)))).length) := by
  simp only [run_clustering, hne, Bool.false_eq_true, if_false, if_neg hged]
  rw [if_pos (update_clusters_none_commits st _ _)]

/-- C3.  After a successful full run that reaches the replace (at least
`MIN_CLUSTER_SIZE` embedding rows, store available), the persisted state
satisfies referential integrity — every membership row's `cluster_id` is
the id of a cluster row inserted by this same run — and no article id
appears in more than one membership row. -/
theorem c3_replace_invariants (scale : List (List Rat) → List (List Rat))
    (hdb : List (List Rat) → List Int)
    (tfidf : List String → Except Unit (List (String × Rat))) (st : DBState)
    (hmin : MIN_CLUSTER_SIZE ≤ (get_all_embeddings st).length) :
    (∀ m ∈ (run_clustering scale hdb tfidf none st).1.cluster_members,
        m.cluster_id ∈ (run_clustering scale hdb tfidf none st).1.clusters.map
          (fun cr => cr.cluster_id))
    ∧ ((run_clustering scale hdb tfidf none st).1.cluster_members.map
        (fun mr => mr.article_id)).Nodup := by
  have hne : (get_all_embeddings st).isEmpty = false := by
    cases hdata : get_all_embeddings st with
    | nil =>
      rw [hdata, List.length_nil] at hmin
      exact absurd hmin (by decide)
    | cons r rs => rfl
  have hged : ¬ ((get_all_embeddings st).map (fun r => r.vector)).length < MIN_CLUSTER_SIZE := by
    rw [List.length_map]
    omega
  rw [run_clustering_success scale hdb tfidf st hne hged]
  have hcommit := update_clusters_none_commits st
    (mkAssignments ((get_all_embeddings st).map (fun r => r.article_id))
      (cluster_articles scale hdb ((get_all_embeddings st).map (fun r => r.vector))))
    (generate_cluster_labels tfidf ((get_all_embeddings st).map toLabArticle)
      (cluster_articles scale hdb ((get_all_embeddings st).map (fun r => r.vector))))
  rw [(update_clusters_spec none st _ _).1 hcommit]
  constructor
  · intro m hm
    simp only [replacedState] at hm ⊢
    obtain ⟨p, hp, hpe⟩ := List.mem_filterMap.mp hm
    by_cases h0 : (0 : Int) ≤ p.2
    · rw [if_pos h0] at hpe
      cases hpe
      rcases mem_mkAssignments_fold _ [] p hp with habs | ⟨hzip, _⟩
      · exact absurd habs (List.not_mem_nil p)
      · obtain ⟨d, hd⟩ := zip_map_mem (fun r => r.article_id) toLabArticle
          (get_all_embeddings st) _ p.1 p.2 (by exact hzip)
        rw [clusters_ids_eq]
        have hfile : (toLabArticle d, p.2)
            ∈ (((get_all_embeddings st).map toLabArticle).zip
                (cluster_articles scale hdb ((get_all_embeddings st).map
                  (fun r => r.vector)))).filter (fun q => q.2 = p.2) :=
          List.mem_filter.mpr ⟨hd, by simp⟩
        have hfe : ((((get_all_embeddings st).map toLabArticle).zip
            (cluster_articles scale hdb ((get_all_embeddings st).map
              (fun r => r.vector)))).filter (fun q => q.2 = p.2)).isEmpty = false := by
          cases hc : (((get_all_embeddings st).map toLabArticle).zip
              (cluster_articles scale hdb ((get_all_embeddings st).map
                (fun r => r.vector)))).filter (fun q => q.2 = p.2) with
          | nil =>
            rw [hc] at hfile
            exact absurd hfile (List.not_mem_nil _)
          | cons y ys => rfl
        have hfind := groupFold_find p.2 h0
          (((get_all_embeddings st).map toLabArticle).zip
            (cluster_articles scale hdb ((get_all_embeddings st).map (fun r => r.vector)))) []
        rw [show assocFind p.2 ([] : List (Int × List LabArticle)) = none from rfl] at hfind
        rw [hfe] at hfind
        simp only [Bool.false_eq_true, if_false] at hfind
        have hlook : assocFind p.2 (generate_cluster_labels tfidf
            ((get_all_embeddings st).map toLabArticle)
            (cluster_articles scale hdb ((get_all_embeddings st).map (fun r => r.vector))))
            = some (labelOneCluster tfidf p.2
                ((((((get_all_embeddings st).map toLabArticle).zip
                  (cluster_articles scale hdb ((get_all_embeddings st).map
                    (fun r => r.vector)))).filter (fun q => q.2 = p.2)).map
                      Prod.fst).map labelText)) := by
          unfold generate_cluster_labels groupByLabel
          rw [assocFind_map_label
            (fun (cid : Int) (v : List LabArticle) => labelOneCluster tfidf cid
              (v.map labelText)) p.2]
          rw [hfind]
          rfl
        exact mem_keys_of_assocFind hlook
    · rw [if_neg h0] at hpe
      exact absurd hpe (by simp)
  · simp only [replacedState]
    have hnodup := mkAssignments_fold_nodup
      (((get_all_embeddings st).map (fun r => r.article_id)).zip
        (cluster_articles scale hdb ((get_all_embeddings st).map (fun r => r.vector))))
      [] (List.nodup_nil)
    exact List.Nodup.sublist (memberRows_article_ids _) hnodup

/-- C3 (witness): three embedded articles, all assigned to cluster 0 by the
clusterer stub, with a failing term model — the committed state satisfies
both invariants. -/
theorem c3_witness :
    MIN_CLUSTER_SIZE ≤ (get_all_embeddings c3st).length
    ∧ (∀ m ∈ (run_clustering idScale zeroCluster tfidfFail none c3st).1.cluster_members,
        m.cluster_id ∈ (run_clustering idScale zeroCluster tfidfFail none c3st).1.clusters.map
          (fun cr => cr.cluster_id))
    ∧ ((run_clustering idScale zeroCluster tfidfFail none c3st).1.cluster_members.map
        (fun mr => mr.article_id)).Nodup :=
  ⟨by decide,
   (c3_replace_invariants idScale zeroCluster tfidfFail c3st (by decide)).1,
   (c3_replace_invariants idScale zeroCluster tfidfFail c3st (by decide)).2⟩

/-! ## C4 — idempotent re-embedding -/

/-- C4 (counterexample).  `c4st` holds 51 embeddable articles and no
embeddings: the first call embeds only the batch limit of 50, so the
second call embeds one more article, refuting "the second call embeds zero
new articles" for an unchanged article set. -/
theorem c4_counterexample :
    ¬ ((generate_embeddings_for_unprocessed encConst noFail
        (generate_embeddings_for_unprocessed encConst noFail c4st).1).2 = 0) := by
  decide

lemma storedRows_noFail (l : List (Int × List Rat)) :
    storedRows noFail l = l.map (fun p => ⟨p.1, p.2, EMBEDDING_MODEL⟩) := by
  unfold storedRows noFail
  simp

/-- The first embedding pass appends rows for exactly the qualifying
unembedded articles (when the whole unembedded set fits in one batch). -/
lemma c4_first_call (encode : List String → List (List Rat)) (st : DBState)
    (h2 : (unembeddedArticles st).length ≤ 50)
    (h3 : ∀ ts, (encode ts).length = ts.length) :
    ∃ rows : List EmbRow,
      (generate_embeddings_for_unprocessed encode noFail st).1
        = { st with embeddings := st.embeddings ++ rows }
      ∧ rows.map (fun e => e.article_id)
          = ((unembeddedArticles st).filter (fun a => 50 < (normalizedOf a).length)).map
              (fun a => a.id) := by
  have htake : get_articles_without_embeddings st 50 = unembeddedArticles st :=
    List.take_of_length_le h2
  simp only [generate_embeddings_for_unprocessed, htake]
  by_cases hUe : (unembeddedArticles st).isEmpty
  · rw [if_pos hUe]
    refine ⟨[], by simp, ?_⟩
    rw [List.isEmpty_iff.mp hUe]
    rfl
  · rw [if_neg hUe]
    by_cases hide : (generate_embeddings encode (unembeddedArticles st)).1.isEmpty
    · rw [if_pos hide]
      refine ⟨[], by simp, ?_⟩
      have hnil := List.isEmpty_iff.mp hide
      rw [generate_embeddings_fst] at hnil
      rw [hnil]
      rfl
    · rw [if_neg hide]
      refine ⟨storedRows noFail
        ((generate_embeddings encode (unembeddedArticles st)).1.zip
          (generate_embeddings encode (unembeddedArticles st)).2), ?_, ?_⟩
      · rw [store_embeddings_spec]
      · have hEne : (unembeddedArticles st).filter
            (fun a => decide (50 < (normalizedOf a).length)) ≠ [] := by
          intro hE
          rw [generate_embeddings_fst, hE] at hide
          exact hide rfl
        have hsnd : (generate_embeddings encode (unembeddedArticles st)).2
            = encode (((unembeddedArticles st).filter
                (fun a => 50 < (normalizedOf a).length)).map normalizedOf) := by
          rw [generate_embeddings_eq]
          rw [if_neg (by simpa [List.isEmpty_iff] using hEne)]
        have hlen : (generate_embeddings encode (unembeddedArticles st)).1.length
            ≤ (generate_embeddings encode (unembeddedArticles st)).2.length := by
          rw [hsnd, h3, generate_embeddings_fst]
          rw [List.length_map, List.length_map]
        rw [storedRows_noFail, List.map_map]
        have : ((fun e : EmbRow => e.article_id)
            ∘ (fun p : Int × List Rat => (⟨p.1, p.2, EMBEDDING_MODEL⟩ : EmbRow)))
            = Prod.fst := rfl
        rw [this, List.map_fst_zip _ _ hlen, generate_embeddings_fst]

lemma hasEmbedding_append_rows (st : DBState) (rows : List EmbRow) (aid : Int) :
    hasEmbedding { st with embeddings := st.embeddings ++ rows } aid
      = (hasEmbedding st aid || rows.any (fun e => e.article_id == aid)) := by
  unfold hasEmbedding
  simp [List.any_append]

/-- After the first pass, the unembedded set is exactly the too-short
remainder (given unique article ids). -/
lemma c4_unembedded_after (st : DBState) (rows : List EmbRow)
    (h1 : (st.articles.map (fun a => a.id)).Nodup)
    (hrows : rows.map (fun e => e.article_id)
      = ((unembeddedArticles st).filter (fun a => 50 < (normalizedOf a).length)).map
          (fun a => a.id)) :
    unembeddedArticles { st with embeddings := st.embeddings ++ rows }
      = (unembeddedArticles st).filter (fun a => ¬ (50 < (normalizedOf a).length)) := by
  unfold unembeddedArticles
  show st.articles.filter _ = (st.articles.filter _).filter _
  rw [List.filter_filter]
  apply List.filter_congr
  intro a ha
  rw [hasEmbedding_append_rows]
  cases hemb : hasEmbedding st a.id with
  | true => simp
  | false =>
    simp only [Bool.false_or, Bool.and_true, Bool.true_and, Bool.not_false]
    have hUa : a ∈ unembeddedArticles st := by
      unfold unembeddedArticles
      rw [List.mem_filter]
      exact ⟨ha, by rw [hemb]; rfl⟩
    cases hany : rows.any (fun e => e.article_id == a.id) with
    | true =>
      obtain ⟨e, he, heq⟩ := List.any_eq_true.mp hany
      have hmem : a.id ∈ rows.map (fun e => e.article_id) :=
        List.mem_map.mpr ⟨e, he, by simpa using heq⟩
      rw [hrows] at hmem
      obtain ⟨b, hb, hbid⟩ := List.mem_map.mp hmem
      have hbU : b ∈ unembeddedArticles st := List.mem_of_mem_filter hb
      have hbA : b ∈ st.articles := List.mem_of_mem_filter hbU
      have hba : b = a := List.inj_on_of_nodup_map h1 hbA ha hbid
      have hblen := (List.mem_filter.mp hb).2
      rw [hba] at hblen
      simp only [decide_eq_true_eq] at hblen
      simp [hblen]
    | false =>
      simp only [Bool.not_false, Bool.true_and]
      cases hlen : decide (¬ (50 < (normalizedOf a).length)) with
      | true => rfl
      | false =>
        have hlen2 : 50 < (normalizedOf a).length := by
          have := of_decide_eq_false hlen
          omega
        have haE : a ∈ (unembeddedArticles st).filter
            (fun a => decide (50 < (normalizedOf a).length)) :=
          List.mem_filter.mpr ⟨hUa, by simpa using hlen2⟩
        have hmem : a.id ∈ rows.map (fun e => e.article_id) := by
          rw [hrows]
          exact List.mem_map.mpr ⟨a, haE, rfl⟩
        obtain ⟨e, he, heid⟩ := List.mem_map.mp hmem
        have : rows.any (fun e => e.article_id == a.id) = true :=
          List.any_eq_true.mpr ⟨e, he, by simpa using heid⟩
        rw [this] at hany
        exact Bool.noConfusion hany

/-- A state whose unembedded articles are all below the length threshold is
a fixed point of the embedding pass, which embeds zero articles. -/
lemma c4_second_call (st1 : DBState) (U' : List Article)
    (encode : List String → List (List Rat))
    (hU' : unembeddedArticles st1 = U'.filter (fun a => ¬ (50 < (normalizedOf a).length))) :
    generate_embeddings_for_unprocessed encode noFail st1 = (st1, 0) := by
  simp only [generate_embeddings_for_unprocessed]
  by_cases he : (get_articles_without_embeddings st1 50).isEmpty
  · rw [if_pos he]
  · rw [if_neg he]
    have hids : (generate_embeddings encode (get_articles_without_embeddings st1 50)).1
        = [] := by
      rw [generate_embeddings_fst]
      have hfil : (get_articles_without_embeddings st1 50).filter
          (fun a => decide (50 < (normalizedOf a).length)) = [] := by
        rw [List.filter_eq_nil_iff]
        intro a hmem
        have haU : a ∈ unembeddedArticles st1 := List.mem_of_mem_take hmem
        rw [hU'] at haU
        have := (List.mem_filter.mp haU).2
        simp only [decide_eq_true_eq] at this ⊢
        omega
      rw [hfil]
      rfl
    rw [if_pos (by rw [hids]; rfl)]

/-- C4 (amended).  Provided the unchanged article set has at most 50
unembedded articles (the per-call batch limit of
`get_articles_without_embeddings(limit=50)`), unique article ids, and an
encoder returning one vector per text: running the embedding store twice in
succession leaves exactly one embedding row per eligible article (an
unembedded article whose normalized text passes the length threshold), and
the second call is a no-op that embeds zero new articles. -/
theorem c4_idempotent_amended (encode : List String → List (List Rat)) (st : DBState)
    (h1 : (st.articles.map (fun a => a.id)).Nodup)
    (h2 : (unembeddedArticles st).length ≤ 50)
    (h3 : ∀ ts, (encode ts).length = ts.length) :
    generate_embeddings_for_unprocessed encode noFail
        (generate_embeddings_for_unprocessed encode noFail st).1
      = ((generate_embeddings_for_unprocessed encode noFail st).1, 0)
    ∧ ∀ a ∈ st.articles, hasEmbedding st a.id = false → 50 < (normalizedOf a).length →
        ((generate_embeddings_for_unprocessed encode noFail st).1.embeddings.countP
          (fun e => e.article_id == a.id)) = 1 := by
  obtain ⟨rows, hst1, hrows⟩ := c4_first_call encode st h2 h3
  constructor
  · rw [hst1]
    exact c4_second_call _ (unembeddedArticles st) encode
      (c4_unembedded_after st rows h1 hrows)
  · intro a ha hnoemb hlen
    rw [hst1]
    show (st.embeddings ++ rows).countP (fun e => e.article_id == a.id) = 1
    rw [List.countP_append]
    have hz : st.embeddings.countP (fun e => e.article_id == a.id) = 0 := by
      rw [List.countP_eq_zero]
      intro e he
      have : ¬ (e.article_id = a.id) := by
        intro hc
        have : hasEmbedding st a.id = true :=
          List.any_eq_true.mpr ⟨e, he, by simpa using hc⟩
        rw [this] at hnoemb
        exact Bool.noConfusion hnoemb
      simpa using this
    rw [hz, Nat.zero_add]
    have hcnt : rows.countP (fun e => e.article_id == a.id)
        = (rows.map (fun e => e.article_id)).countP (fun i => i == a.id) := by
      rw [List.countP_map]
      rfl
    rw [hcnt, hrows]
    have hsub : (((unembeddedArticles st).filter
        (fun a => 50 < (normalizedOf a).length)).map (fun a => a.id)).Sublist
          (st.articles.map (fun a => a.id)) := by
      apply List.Sublist.map
      exact ((List.filter_sublist _).trans (List.filter_sublist _))
    have hnodup : (((unembeddedArticles st).filter
        (fun a => 50 < (normalizedOf a).length)).map (fun a => a.id)).Nodup :=
      List.Nodup.sublist hsub h1
    have hmem : a.id ∈ ((unembeddedArticles st).filter
        (fun a => 50 < (normalizedOf a).length)).map (fun a => a.id) := by
      apply List.mem_map.mpr
      refine ⟨a, ?_, rfl⟩
      apply List.mem_filter.mpr
      refine ⟨?_, by simpa using hlen⟩
      unfold unembeddedArticles
      apply List.mem_filter.mpr
      exact ⟨ha, by rw [hnoemb]; rfl⟩
    show List.count a.id (((unembeddedArticles st).filter
        (fun a => 50 < (normalizedOf a).length)).map (fun a => a.id)) = 1
    exact List.count_eq_one_of_mem hnodup hmem

/-- C4 (witness): one never-embedded article with a long title — two passes
leave exactly one row for it and the second pass embeds nothing. -/
theorem c4_witness :
    generate_embeddings_for_unprocessed encConst noFail
        (generate_embeddings_for_unprocessed encConst noFail
          ⟨[⟨7, c4title, "", 0⟩], [], [], []⟩).1
      = ((generate_embeddings_for_unprocessed encConst noFail
          ⟨[⟨7, c4title, "", 0⟩], [], [], []⟩).1, 0)
    ∧ ((generate_embeddings_for_unprocessed encConst noFail
          ⟨[⟨7, c4title, "", 0⟩], [], [], []⟩).1.embeddings.countP
        (fun e => e.article_id == 7)) = 1 :=
  ⟨(c4_idempotent_amended encConst ⟨[⟨7, c4title, "", 0⟩], [], [], []⟩
      (by decide) (by decide) (fun ts => by simp [encConst])).1,
   (c4_idempotent_amended encConst ⟨[⟨7, c4title, "", 0⟩], [], [], []⟩
      (by decide) (by decide) (fun ts => by simp [encConst])).2
     ⟨7, c4title, "", 0⟩ (by decide) (by decide) (by decide)⟩

end BiasLens
